import Mathlib

/-!
# Verification of the jobradar fetch-stage core (`src/fetcher.py`)

Shallow embedding of the job-relevance and deduplication pipeline:
fingerprinting, deduplication, salary extraction, relevance scoring,
filtering, URL liveness checking and the seen-jobs ledger, together with
theorems settling the frozen claims about them.

Modelling conventions:
* Python `str` is Lean `String`; character-level operations work on `.data`
  (`List Char`).  Python's `str.lower`/`str.strip` are modelled for the
  ASCII range (`pyLower`, `pyStrip`); non-ASCII case folding is out of scope.
* Python floats in the relevance scorer are modelled as exact rationals `ℚ`.
* `dict` with string keys is an association list with in-place update on an
  existing key (`dictInsert`), preserving Python's insertion-order semantics.
* Network effects (`requests.get`) are an explicit `FetchResult` input.
-/

namespace JobRadar

/-! ## Python string primitives -/

/-- Characters stripped by Python `str.strip()` (ASCII whitespace). -/
def pyIsSpace (c : Char) : Bool :=
  c = ' ' || c = '\t' || c = '\n' || c = '\r' || c = '\x0b' || c = '\x0c'

/-- Python `str.lower()` (ASCII case folding). -/
def pyLower (s : String) : String :=
  String.mk (s.data.map Char.toLower)

/-- Python `str.strip()`: drop leading and trailing whitespace. -/
def pyStrip (s : String) : String :=
  String.mk (((s.data.dropWhile pyIsSpace).reverse.dropWhile pyIsSpace).reverse)

/-- Test whether `needle` occurs as a contiguous sublist of `hay`. -/
def listIsInfix (needle : List Char) : List Char → Bool
  | [] => needle.isEmpty
  | c :: rest => needle.isPrefixOf (c :: rest) || listIsInfix needle rest

/-- Python `needle in hay` substring test. -/
def strContains (hay needle : String) : Bool :=
  listIsInfix needle.data hay.data

/-- Python `hay.count(needle)`: number of non-overlapping occurrences,
scanning left to right. -/
def countOccurrences (needle hay : List Char) : Nat :=
  if hne : needle = [] then hay.length + 1
  else
    match hay with
    | [] => 0
    | c :: rest =>
      if needle.isPrefixOf (c :: rest) then
        1 + countOccurrences needle ((c :: rest).drop needle.length)
      else
        countOccurrences needle rest
termination_by hay.length
decreasing_by
  · simp only [List.length_drop, List.length_cons]
    have : 1 ≤ needle.length := Nat.one_le_iff_ne_zero.mpr (by simpa using hne)
    omega
  · simp

/-- String version of `countOccurrences`, modelling Python `hay.count(needle)`. -/
def strCount (hay needle : String) : Nat :=
  countOccurrences needle.data hay.data

/-- Python `s.split("\n")`: split on every newline; `""` yields `[""]`. -/
def splitLines : List Char → List (List Char)
  | [] => [[]]
  | c :: rest =>
    if c = '\n' then [] :: splitLines rest
    else
      match splitLines rest with
      | [] => [[c]]
      | l :: ls => (c :: l) :: ls

/-! ## SHA-256 (`hashlib.sha256`), over `Nat` words reduced mod 2^32 -/

/-- Truncate to a 32-bit word. -/
def w32 (n : Nat) : Nat := n % 4294967296

/-- Rotate a 32-bit word right by `n`. -/
def rotr32 (x n : Nat) : Nat := w32 ((x >>> n) ||| (x <<< (32 - n)))

def sha256K : List Nat :=
  [1116352408, 1899447441, 3049323471, 3921009573, 961987163,
   1508970993, 2453635748, 2870763221, 3624381080, 310598401,
   607225278, 1426881987, 1925078388, 2162078206, 2614888103,
   3248222580, 3835390401, 4022224774, 264347078, 604807628,
   770255983, 1249150122, 1555081692, 1996064986, 2554220882,
   2821834349, 2952996808, 3210313671, 3336571891, 3584528711,
   113926993, 338241895, 666307205, 773529912, 1294757372,
   1396182291, 1695183700, 1986661051, 2177026350, 2456956037,
   2730485921, 2820302411, 3259730800, 3345764771, 3516065817,
   3600352804, 4094571909, 275423344, 430227734, 506948616,
   659060556, 883997877, 958139571, 1322822218, 1537002063,
   1747873779, 1955562222, 2024104815, 2227730452, 2361852424,
   2428436474, 2756734187, 3204031479, 3329325298]

/-- Big-endian byte rendering of `x`, `n` bytes wide. -/
def bigEndianBytes (n x : Nat) : List Nat :=
  (List.range n).map (fun i => (x >>> (8 * (n - 1 - i))) % 256)

/-- SHA-256 message padding over a byte list. -/
def sha256Pad (msg : List Nat) : List Nat :=
  let len := msg.length
  let padZeros := (119 - len % 64) % 64
  msg ++ [128] ++ List.replicate padZeros 0 ++ bigEndianBytes 8 (len * 8)

/-- Pack bytes into big-endian 32-bit words. -/
def bytesToWords : List Nat → List Nat
  | b0 :: b1 :: b2 :: b3 :: rest =>
    (b0 * 16777216 + b1 * 65536 + b2 * 256 + b3) :: bytesToWords rest
  | _ => []

/-- Split a word list into 16-word blocks. -/
def chunks16 (ws : List Nat) : List (List Nat) :=
  if hne : ws = [] then []
  else ws.take 16 :: chunks16 (ws.drop 16)
termination_by ws.length
decreasing_by
  simp only [List.length_drop]
  have : 0 < ws.length := List.length_pos.mpr hne
  omega

def smallSigma0 (x : Nat) : Nat := rotr32 x 7 ^^^ rotr32 x 18 ^^^ (x >>> 3)
def smallSigma1 (x : Nat) : Nat := rotr32 x 17 ^^^ rotr32 x 19 ^^^ (x >>> 10)
def bigSigma0 (x : Nat) : Nat := rotr32 x 2 ^^^ rotr32 x 13 ^^^ rotr32 x 22
def bigSigma1 (x : Nat) : Nat := rotr32 x 6 ^^^ rotr32 x 11 ^^^ rotr32 x 25
def chFn (x y z : Nat) : Nat := (x &&& y) ^^^ ((x ^^^ 4294967295) &&& z)
def majFn (x y z : Nat) : Nat := (x &&& y) ^^^ (x &&& z) ^^^ (y &&& z)

/-- Extend a 16-word block to the 64-word message schedule. -/
def schedule (block : List Nat) : List Nat :=
  (List.range 48).foldl
    (fun w _ =>
      let i := w.length
      w ++ [w32 (w.getD (i - 16) 0 + smallSigma0 (w.getD (i - 15) 0) +
                 w.getD (i - 7) 0 + smallSigma1 (w.getD (i - 2) 0))])
    block

/-- The eight 32-bit words of SHA-256 working state. -/
structure Hash8 where
  a : Nat
  b : Nat
  c : Nat
  d : Nat
  e : Nat
  f : Nat
  g : Nat
  h : Nat

def sha256H0 : Hash8 :=
  ⟨1779033703, 3144134277, 1013904242, 2773480762,
   1359893119, 2600822924, 528734635, 1541459225⟩

/-- One SHA-256 compression over a 16-word block. -/
def compressBlock (H : Hash8) (block : List Nat) : Hash8 :=
  let ws := schedule block
  let st := (List.range 64).foldl
    (fun (s : Hash8) i =>
      let t1 := w32 (s.h + bigSigma1 s.e + chFn s.e s.f s.g +
                     sha256K.getD i 0 + ws.getD i 0)
      let t2 := w32 (bigSigma0 s.a + majFn s.a s.b s.c)
      ⟨w32 (t1 + t2), s.a, s.b, s.c, w32 (s.d + t1), s.e, s.f, s.g⟩)
    H
  ⟨w32 (H.a + st.a), w32 (H.b + st.b), w32 (H.c + st.c), w32 (H.d + st.d),
   w32 (H.e + st.e), w32 (H.f + st.f), w32 (H.g + st.g), w32 (H.h + st.h)⟩

/-- SHA-256 digest (32 bytes) of a byte list. -/
def sha256Bytes (msg : List Nat) : List Nat :=
  let final := (chunks16 (bytesToWords (sha256Pad msg))).foldl compressBlock sha256H0
  ([final.a, final.b, final.c, final.d, final.e, final.f, final.g, final.h].map
    (bigEndianBytes 4)).flatten

def hexDigitChar (n : Nat) : Char :=
  if n < 10 then Char.ofNat (48 + n) else Char.ofNat (87 + n)

def byteToHex (b : Nat) : List Char := [hexDigitChar (b / 16), hexDigitChar (b % 16)]

/-- Python `hashlib.sha256(bytes).hexdigest()`. -/
def sha256hex (msg : List Nat) : String :=
  String.mk ((sha256Bytes msg).map byteToHex).flatten

/-- UTF-8 bytes of a string (Python `str.encode()`). -/
def strBytes (s : String) : List Nat :=
  s.toUTF8.toList.map (·.toNat)

/-! ## `job_fingerprint` (`fetcher.py:65-68`) -/

/-- The normalized string `f"{title.lower().strip()}|{company.lower().strip()}"`. -/
def fingerprintInput (title company : String) : String :=
  pyStrip (pyLower title) ++ "|" ++ pyStrip (pyLower company)

/-- Python `job_fingerprint`: the first 16 hex chars of SHA-256 of the
normalized title/company pair. -/
def job_fingerprint (title company : String) : String :=
  (sha256hex (strBytes (fingerprintInput title company))).take 16

/-! ## A small backtracking regex engine

Just enough of Python `re` for the four salary patterns and the `\b`-anchored
anti-signal search: literals, single-character classes, greedy class
repetition, ordered alternation, greedy option and capturing groups.
Matching enumerates outcomes in Python's backtracking priority order
(greedy-longest first, left alternative first); `re.search` semantics is the
first matching start position, first outcome there. -/

inductive RE where
  | lit : List Char → RE
  | cls : (Char → Bool) → RE
  | starCls : (Char → Bool) → RE
  | plusCls : (Char → Bool) → RE
  | seq : RE → RE → RE
  | alt : RE → RE → RE
  | opt : RE → RE
  | grp : RE → RE

/-- All ways a regex can match a prefix of `s`, in backtracking priority
order; each outcome is the remaining suffix and the captured groups in order. -/
def matchAll : RE → List Char → List (List Char × List String)
  | .lit cs, s => if cs.isPrefixOf s then [(s.drop cs.length, [])] else []
  | .cls p, s =>
    match s with
    | [] => []
    | c :: rest => if p c then [(rest, [])] else []
  | .starCls p, s =>
    let m := (s.takeWhile p).length
    (List.range (m + 1)).map (fun k => (s.drop (m - k), []))
  | .plusCls p, s =>
    let m := (s.takeWhile p).length
    (List.range m).map (fun k => (s.drop (m - k), []))
  | .seq a b, s =>
    (matchAll a s).flatMap (fun p1 =>
      (matchAll b p1.1).map (fun p2 => (p2.1, p1.2 ++ p2.2)))
  | .alt a b, s => matchAll a s ++ matchAll b s
  | .opt r, s => matchAll r s ++ [(s, [])]
  | .grp r, s =>
    (matchAll r s).map (fun p =>
      (p.1, p.2 ++ [String.mk (s.take (s.length - p.1.length))]))

/-- Python `re.search`: leftmost match, returning `group(0)` and the groups. -/
def reSearch (r : RE) (s : List Char) : Option (String × List String) :=
  match matchAll r s with
  | (s', caps) :: _ => some (String.mk (s.take (s.length - s'.length)), caps)
  | [] =>
    match s with
    | [] => none
    | _ :: rest => reSearch r rest

/-! ## Salary extraction (`_extract_salary_from_description`, fetcher.py:234-285) -/

/-- Class `\s` (ASCII). -/
def wsClass (c : Char) : Bool := pyIsSpace c

/-- Class `[\d,]`. -/
def digitComma (c : Char) : Bool := c.isDigit || c = ','

/-- Class `[:\s]`. -/
def colonWs (c : Char) : Bool := c = ':' || pyIsSpace c

/-- Class `[kK]`. -/
def kKClass (c : Char) : Bool := c = 'k' || c = 'K'

/-- Class `[Ss]`. -/
def sSClass (c : Char) : Bool := c = 'S' || c = 's'

/-- Fold a pattern list into nested `seq` (epsilon is the empty literal). -/
def reSeq (l : List RE) : RE := l.foldr .seq (.lit [])

/-- Fragment `(?:CA|CAD)?`. -/
def reCur : RE := .opt (.alt (.lit ['C', 'A']) (.lit ['C', 'A', 'D']))

/-- Fragment `(?:-|–|to)`. -/
def reRangeSep : RE := .alt (.lit ['-']) (.alt (.lit ['–']) (.lit ['t', 'o']))

/-- Fragment `(\d[\d,]*)`. -/
def reNum : RE := .grp (.seq (.cls Char.isDigit) (.starCls digitComma))

/-- Pattern 0: `(?:CA|CAD)?\$\s*(\d[\d,]*)\s*(?:-|–|to)\s*(?:CA|CAD)?\$?\s*(\d[\d,]*)`. -/
def salaryPatRange : RE :=
  reSeq [reCur, .lit ['$'], .starCls wsClass, reNum, .starCls wsClass,
         reRangeSep, .starCls wsClass, reCur, .opt (.lit ['$']),
         .starCls wsClass, reNum]

/-- Pattern 1: `(?:CA|CAD)?\$\s*(\d+)\s*[kK]\s*(?:-|–|to)\s*(?:CA|CAD)?\$?\s*(\d+)\s*[kK]`. -/
def salaryPatK : RE :=
  reSeq [reCur, .lit ['$'], .starCls wsClass, .grp (.plusCls Char.isDigit),
         .starCls wsClass, .cls kKClass, .starCls wsClass, reRangeSep,
         .starCls wsClass, reCur, .opt (.lit ['$']), .starCls wsClass,
         .grp (.plusCls Char.isDigit), .starCls wsClass, .cls kKClass]

/-- Pattern 2: `[Ss]alary[:\s]+(?:CA|CAD)?\$\s*(\d[\d,]*)`. -/
def salaryPatLabeled : RE :=
  reSeq [.cls sSClass, .lit ['a', 'l', 'a', 'r', 'y'], .plusCls colonWs,
         reCur, .lit ['$'], .starCls wsClass, reNum]

/-- Pattern 3: `(?:CA|CAD)?\$\s*(\d[\d,]*)`. -/
def salaryPatBare : RE :=
  reSeq [reCur, .lit ['$'], .starCls wsClass, reNum]

/-- Python `int(s.replace(",", ""))` on a digits-and-commas capture. -/
def digitsToNat (s : String) : Nat :=
  s.data.foldl (fun n c => if c.isDigit then n * 10 + (c.toNat - 48) else n) 0

/-- One salary extraction result: `(salary_min, salary_max, raw match)`. -/
abbrev SalaryResult := Option Nat × Option Nat × String

/-- Range pattern branch: both values must clear the 20,000 floor. -/
def trySalaryRange (line : List Char) : Option SalaryResult :=
  match reSearch salaryPatRange line with
  | some (raw, [g1, g2]) =>
    let v1 := digitsToNat g1
    let v2 := digitsToNat g2
    if 20000 ≤ v1 && 20000 ≤ v2 then some (some (min v1 v2), some (max v1 v2), raw)
    else none
  | _ => none

/-- K-notation branch (`i == 1` in the source): values scaled by 1000. -/
def trySalaryK (line : List Char) : Option SalaryResult :=
  match reSearch salaryPatK line with
  | some (raw, [g1, g2]) =>
    let v1 := digitsToNat g1 * 1000
    let v2 := digitsToNat g2 * 1000
    if 20000 ≤ v1 && 20000 ≤ v2 then some (some (min v1 v2), some (max v1 v2), raw)
    else none
  | _ => none

/-- Single-value branch shared by patterns 2 and 3. -/
def trySalarySingle (pat : RE) (line : List Char) : Option SalaryResult :=
  match reSearch pat line with
  | some (raw, [g]) =>
    let v := digitsToNat g
    if 20000 ≤ v then some (some v, none, raw) else none
  | _ => none

/-- Try the four patterns in order on one line; a pattern that matches below
the floor falls through to the next pattern, as in the source loop. -/
def extractFromLine (line : List Char) : Option SalaryResult :=
  match trySalaryRange line with
  | some r => some r
  | none =>
    match trySalaryK line with
    | some r => some r
    | none =>
      match trySalarySingle salaryPatLabeled line with
      | some r => some r
      | none => trySalarySingle salaryPatBare line

/-- The hourly-rate markers that disqualify a line. -/
def hourlyMarkers : List String := ["/hour", "per hour", "hourly", "/hr"]

/-- A line is skipped when its lowercase form contains an hourly marker. -/
def isHourlyLine (line : List Char) : Bool :=
  hourlyMarkers.any (fun h => listIsInfix h.data (line.map Char.toLower))

/-- Per-line loop of `_extract_salary_from_description`. -/
def extractFromLines : List (List Char) → SalaryResult
  | [] => (none, none, "")
  | line :: rest =>
    if isHourlyLine line then extractFromLines rest
    else
      match extractFromLine line with
      | some r => r
      | none => extractFromLines rest

/-- Python `_extract_salary_from_description`: annual salary from free text.
Returns `(salary_min, salary_max, raw_string)`, `(none, none, "")` if absent. -/
def _extract_salary_from_description (description : String) : SalaryResult :=
  if description = "" then (none, none, "")
  else extractFromLines (splitLines description.data)

/-! ## Relevance scorer (`compute_relevance_score`, fetcher.py:288-334) -/

/-- One configured focus area (`relevance.focus_areas[]`). -/
structure FocusArea where
  name : String
  weight : ℚ
  keywords : List String
deriving DecidableEq

/-- The `relevance` configuration block. -/
structure RelevanceConfig where
  focus_areas : List FocusArea
  anti_signals : List String
  min_score : ℚ
deriving DecidableEq

/-- Python-dict insertion on an association list: overwrite in place if the
key exists, else append. -/
def dictInsert {α : Type} (k : String) (v : α) : List (String × α) → List (String × α)
  | [] => [(k, v)]
  | (k', v') :: rest =>
    if k' = k then (k', v) :: rest else (k', v') :: dictInsert k v rest

/-- The source's `total_weight = sum(a.get("weight", 1) for a in focus_areas)`. -/
def totalWeight (cfg : RelevanceConfig) : ℚ :=
  (cfg.focus_areas.map (·.weight)).sum

/-- One iteration of the `area_scores` loop: skip areas with no keywords,
else record `(breadth * 0.7 + density_norm * 0.3) * weight` under the name. -/
def areaStep (text_lower : String) (d : List (String × ℚ)) (area : FocusArea) :
    List (String × ℚ) :=
  if area.keywords = [] then d
  else
    let matched := area.keywords.filter (fun kw => strContains text_lower (pyLower kw))
    let breadth : ℚ := (matched.length : ℚ) / (area.keywords.length : ℚ)
    let density : Nat := (matched.map (fun kw => strCount text_lower (pyLower kw))).sum
    let density_norm : ℚ := min ((density : ℚ) / 20) 1
    dictInsert area.name ((breadth * (7 / 10) + density_norm * (3 / 10)) * area.weight) d

/-- The `area_scores` dict built over all focus areas. -/
def areaScores (text_lower : String) (areas : List FocusArea) : List (String × ℚ) :=
  areas.foldl (areaStep text_lower) []

/-- The source's `total_weighted = sum(area_scores.values()) / total_weight if total_weight else 0.0`. -/
def baseScore (jd_text title : String) (cfg : RelevanceConfig) : ℚ :=
  if totalWeight cfg = 0 then 0
  else ((areaScores (pyLower jd_text) cfg.focus_areas).map (·.2)).sum / totalWeight cfg

/-- Class `\w` (ASCII): letters, digits, underscore. -/
def isWordChar (c : Char) : Bool := c.isAlphanum || c = '_'

/-- Anchor `\b` holds at offset `i` of `s`: the characters at `i - 1` and `i`
differ in word-ness (out of range counts as non-word). -/
def boundaryAt (s : List Char) (i : Nat) : Bool :=
  let left := if i = 0 then false else isWordChar (s.getD (i - 1) ' ')
  let right := isWordChar (s.getD i ' ')
  left != right

/-- Whether `re.search` of word-boundary-anchored escaped `sig` in `text`
succeeds: `sig` occurs at a
position with word boundaries on both sides. -/
def hasWordBoundaryMatch (sig text : String) : Bool :=
  (List.range (text.data.length + 1)).any (fun i =>
    sig.data.isPrefixOf (text.data.drop i) &&
    boundaryAt text.data i &&
    boundaryAt text.data (i + sig.data.length))

/-- The source's first-five-lines header: split on newlines, take 5,
rejoin with newlines, lowercase. -/
def firstFiveLines (jd_text : String) : String :=
  pyLower (String.mk (List.intercalate ['\n'] ((splitLines jd_text.data).take 5)))

/-- The two-tier anti-signal penalty: 0.5 on a title hit, else 0.1 on a hit
in the first five JD lines, else 0; 0 when no anti-signals are configured. -/
def antiPenalty (cfg : RelevanceConfig) (jd_text title_lower : String) : ℚ :=
  if cfg.anti_signals = [] then 0
  else if cfg.anti_signals.any (fun sig => hasWordBoundaryMatch (pyLower sig) title_lower) then 1 / 2
  else if cfg.anti_signals.any (fun sig => hasWordBoundaryMatch (pyLower sig) (firstFiveLines jd_text)) then 1 / 10
  else 0

/-- Python `compute_relevance_score`: `(score, breakdown)`; score 1 and an
empty breakdown when no
focus areas are configured, else the penalized weighted average floored at 0. -/
def compute_relevance_score (jd_text title : String) (cfg : RelevanceConfig) :
    ℚ × List (String × ℚ) :=
  if cfg.focus_areas = [] then (1, [])
  else
    (max (baseScore jd_text title cfg - antiPenalty cfg jd_text (pyLower title)) 0,
     areaScores (pyLower jd_text) cfg.focus_areas)

/-! ## Job records and filters (`matches_filters`, fetcher.py:337-385) -/

/-- The canonical job posting record (normalized dict fields used by the
dedup/filter/score/ledger core). -/
structure Job where
  title : String
  company : String
  location : String := ""
  description : String := ""
  apply_url : String := ""
  source : String := ""
  is_remote : Bool := false
  salary_min : Option Nat := none
  salary_max : Option Nat := none
  fingerprint : Option String := none
deriving DecidableEq

/-- The `filters` configuration block. -/
structure FilterConfig where
  exclude_companies : List String := []
  must_contain : List String := []
  exclude_keywords : List String := []
  min_salary : Nat := 0
  include_domains : List String := []
  exclude_domains : List String := []
deriving DecidableEq

/-- Python `_job_is_remote`: the API flag, or a "remote" substring in the
lowercase title. -/
def _job_is_remote (job : Job) : Bool :=
  if job.is_remote then true
  else if strContains (pyLower job.title) "remote" then true
  else false

/-- Python `a or b` over optional salary figures (`None` and `0` are falsy). -/
def truthyOr (a : Option Nat) (b : Nat) : Nat :=
  match a with
  | some v => if v ≠ 0 then v else b
  | none => b

/-- Python `matches_filters(job, filters, candidate_province)`: the short-circuit
filter chain; the first failing predicate rejects. -/
def matches_filters (job : Job) (filters : FilterConfig)
    (candidate_province : String) : Bool :=
  let description := pyLower job.description
  let title := pyLower job.title
  let company := pyLower job.company
  let combined := title ++ " " ++ company ++ " " ++ description
  let apply_url := pyLower job.apply_url
  if filters.exclude_companies.any (fun exc => strContains company (pyLower exc)) then
    false
  else if !filters.must_contain.isEmpty &&
      !(filters.must_contain.any (fun kw => strContains combined (pyLower kw))) then
    false
  else if filters.exclude_keywords.any (fun kw => strContains combined (pyLower kw)) then
    false
  else if filters.min_salary ≠ 0 &&
      (let job_sal := truthyOr job.salary_max (truthyOr job.salary_min 0)
       job_sal ≠ 0 && job_sal < filters.min_salary) then
    false
  else if !filters.include_domains.isEmpty &&
      !(filters.include_domains.any (fun d => strContains apply_url (pyLower d))) then
    false
  else if filters.exclude_domains.any (fun d => strContains apply_url (pyLower d)) then
    false
  else if candidate_province ≠ "" && !(_job_is_remote job) then
    if job.location ≠ "" &&
        !(strContains (pyLower job.location) (pyLower candidate_province)) then
      false
    else true
  else true

/-! ## URL liveness (`check_url_alive`, fetcher.py:184-231) -/

/-- The final HTTP response after redirects, as seen by the checker. -/
structure HttpResponse where
  status_code : Nat
  url : String
  content : String
deriving DecidableEq

/-- Outcome of `requests.get`: a response, a timeout, or another network error. -/
inductive FetchResult where
  | success : HttpResponse → FetchResult
  | timeout : FetchResult
  | netError : FetchResult

/-- The phrases whose presence in page content marks a dead listing. -/
def expiredPhrases : List String :=
  ["this job has expired", "this position has been filled", "no longer available",
   "no longer accepting applications", "job not found", "posting has been removed",
   "this listing has expired", "position is no longer available", "job has been closed",
   "this job is no longer active",
   "the job you are looking for is no longer available", "this opportunity is closed"]

/-- Python `s.rstrip("/")`. -/
def rstripSlash (s : String) : String :=
  String.mk (s.data.reverse.dropWhile (· = '/')).reverse

/-- Path component `urllib.parse.urlparse(u).path` for absolute URLs: cut
query/fragment,
skip `scheme://netloc`, keep from the first `/`; scheme-less strings are all
path. -/
def urlPath (u : String) : String :=
  let core := u.data.takeWhile (fun c => c ≠ '?' && c ≠ '#')
  match afterScheme core with
  | some rest => String.mk (rest.dropWhile (· ≠ '/'))
  | none => String.mk core
where
  /-- Suffix after the first `"://"`, if any. -/
  afterScheme : List Char → Option (List Char)
    | [] => none
    | c :: rest =>
      if [':', '/', '/'].isPrefixOf (c :: rest) then some ((c :: rest).drop 3)
      else afterScheme rest

/-- Python `s.startswith(pre)`. -/
def pyStartsWith (s pre : String) : Bool :=
  pre.data.isPrefixOf s.data

/-- Python `check_url_alive(url)`: `(is_alive, reason)` given the network
outcome. -/
def check_url_alive (url : String) (result : FetchResult) : Bool × String :=
  if url = "" || !pyStartsWith url "http" then (true, "no_url")
  else
    match result with
    | .timeout => (true, "timeout")
    | .netError => (true, "error")
    | .success resp =>
      if resp.status_code = 404 || resp.status_code = 410 then
        (false, "http_" ++ toString resp.status_code)
      else if (resp.status_code = 200 || resp.status_code = 301 || resp.status_code = 302) &&
          resp.url ≠ "" && rstripSlash (urlPath resp.url) = "" && url ≠ resp.url then
        (false, "redirect_to_homepage")
      else if resp.status_code = 200 then
        match expiredPhrases.find? (fun p =>
            strContains (pyLower (String.mk (resp.content.data.take 50000))) p) with
        | some phrase => (false, "content:" ++ phrase)
        | none => (true, "ok")
      else (true, "http_" ++ toString resp.status_code)

/-! ## Deduplication (`deduplicate`, fetcher.py:1129-1139) -/

/-- The fingerprint the deduplicator computes for a job. -/
def fpOf (j : Job) : String := job_fingerprint j.title j.company

/-- Stamp the computed fingerprint onto a job (`job["fingerprint"] = fp`). -/
def stampFp (j : Job) : Job := { j with fingerprint := some (fpOf j) }

/-- The dedup loop: keep a job when its fingerprint is unseen, stamping it. -/
def dedupGo (seen : List String) : List Job → List Job
  | [] => []
  | j :: rest =>
    let fp := fpOf j
    if seen.contains fp then dedupGo seen rest
    else stampFp j :: dedupGo (fp :: seen) rest

/-- Python `deduplicate`: remove duplicates by fingerprint, first
occurrence wins. -/
def deduplicate (jobs : List Job) : List Job := dedupGo [] jobs

/-- Modelled from the spec: "return the subsequence of first-occurrences per
fingerprint, discarding later duplicates" — keep the head, drop every later
job with the same fingerprint, recurse. -/
def keepFirsts : List Job → List Job
  | [] => []
  | j :: rest => j :: keepFirsts (rest.filter (fun j2 => fpOf j2 ≠ fpOf j))
termination_by l => l.length
decreasing_by
  simp only [List.length_cons]
  exact Nat.lt_succ_of_le (List.length_filter_le _ _)

/-! ## Seen-state ledger and the pipeline run (`run`, fetcher.py:1250-1400) -/

/-- One ledger entry (`state["seen_jobs"][fp]`). -/
structure SeenMeta where
  title : String
  company : String
  source : String
  first_seen : String
  skipped_expired : Option Bool := none
  expired_reason : Option String := none
  skipped_relevance : Option Bool := none
deriving DecidableEq

/-- The seen-jobs ledger: fingerprint → metadata, Python-dict semantics. -/
abbrev Ledger := List (String × SeenMeta)

/-- The stored fingerprint the run loop reads back (`job["fingerprint"]`). -/
def storedFp (j : Job) : String := j.fingerprint.getD ""

/-- Gating decisions of `save_jd_markdown` (URL expiration, then relevance);
the markdown rendering itself has no bearing on the claims. -/
inductive SaveOutcome where
  | saved : SaveOutcome
  | expired : String → SaveOutcome
  | lowRelevance : SaveOutcome

/-- The URL-expiration and relevance gates of `save_jd_markdown`. -/
def save_jd_decision (job : Job) (relcfg : Option RelevanceConfig)
    (validate_urls : Bool) (net : String → FetchResult) : SaveOutcome :=
  let relevanceGate : SaveOutcome :=
    match relcfg with
    | none => .saved
    | some cfg =>
      let combined := job.title ++ " " ++ job.description
      if (compute_relevance_score combined job.title cfg).1 < cfg.min_score then
        .lowRelevance
      else .saved
  if validate_urls then
    let res := check_url_alive job.apply_url (net job.apply_url)
    if !res.1 then .expired res.2 else relevanceGate
  else relevanceGate

/-- Process one new job in the save loop: append to the saved list on
success, and record the fingerprint in the ledger in every branch. -/
def processNewJob (relcfg : Option RelevanceConfig) (validate_urls : Bool)
    (net : String → FetchResult) (now : String)
    (acc : List Job × Ledger) (job : Job) : List Job × Ledger :=
  let fp := storedFp job
  match save_jd_decision job relcfg validate_urls net with
  | .saved =>
    (acc.1 ++ [job],
     dictInsert fp ⟨job.title, job.company, job.source, now, none, none, none⟩ acc.2)
  | .expired reason =>
    (acc.1,
     dictInsert fp ⟨job.title, job.company, job.source, now, some true, some reason, none⟩ acc.2)
  | .lowRelevance =>
    (acc.1,
     dictInsert fp ⟨job.title, job.company, job.source, now, none, none, some true⟩ acc.2)

/-- Result of one pipeline run: the jobs emitted as new, the JDs actually
saved, and the persisted ledger. -/
structure RunResult where
  new_jobs : List Job
  saved : List Job
  seen_jobs : Ledger

/-- The post-fetch core of `run`: dedup, drop seen/filtered jobs, then save
survivors while recording every processed fingerprint; a dry run persists
nothing. -/
def runPipeline (all_jobs : List Job) (seen0 : Ledger) (filters : FilterConfig)
    (candidate_province : String) (relcfg : Option RelevanceConfig)
    (dry_run : Bool) (validate_urls : Bool) (net : String → FetchResult)
    (now : String) : RunResult :=
  if all_jobs.isEmpty then ⟨[], [], seen0⟩
  else
    let unique_jobs := deduplicate all_jobs
    let new_jobs := unique_jobs.filter (fun j =>
      (seen0.lookup (storedFp j)).isNone &&
      matches_filters j filters candidate_province)
    if new_jobs.isEmpty then ⟨new_jobs, [], seen0⟩
    else if dry_run then ⟨new_jobs, [], seen0⟩
    else
      let out := new_jobs.foldl (processNewJob relcfg validate_urls net now) ([], seen0)
      ⟨new_jobs, out.1, out.2⟩

/-! ## Theorems -/

/-- C8: `job_fingerprint` is the first 16 hex characters of the SHA-256 hash
of `lowercase(trim(title)) + "|" + lowercase(trim(company))`; it is a pure
deterministic function invariant under letter case and leading/trailing
whitespace of its arguments, and in particular
`fingerprint("Senior PM", "Acme") = fingerprint(" senior pm ", "ACME")`. -/
theorem C8_fingerprint_normalization :
    (∀ t c, job_fingerprint t c =
      (sha256hex (strBytes (pyStrip (pyLower t) ++ "|" ++ pyStrip (pyLower c)))).take 16) ∧
    (∀ t c t' c', pyStrip (pyLower t) = pyStrip (pyLower t') →
      pyStrip (pyLower c) = pyStrip (pyLower c') →
      job_fingerprint t c = job_fingerprint t' c') ∧
    job_fingerprint "Senior PM" "Acme" = job_fingerprint " senior pm " "ACME" := by
  have hcong : ∀ t c t' c', pyStrip (pyLower t) = pyStrip (pyLower t') →
      pyStrip (pyLower c) = pyStrip (pyLower c') →
      job_fingerprint t c = job_fingerprint t' c' := by
    intro t c t' c' ht hc
    unfold job_fingerprint fingerprintInput
    rw [ht, hc]
  exact ⟨fun t c => rfl, hcong,
    hcong _ _ _ _ (by decide) (by decide)⟩

/-- Witness for C8: the concrete case-and-whitespace instance. -/
theorem C8_fingerprint_normalization_witness :
    job_fingerprint "Senior PM" "Acme" = job_fingerprint " senior pm " "ACME" :=
  C8_fingerprint_normalization.2.1 "Senior PM" "Acme" " senior pm " "ACME"
    (by decide) (by decide)

/-- C3 counterexample: a non-remote job with an *empty* location string passes
`matches_filters` under a configured province even though the empty string
does not contain the province name — the code only applies the province test
when the location is non-empty. -/
theorem C3_counterexample_empty_location :
    matches_filters { title := "Platform Engineer", company := "Acme" } {} "Ontario" = true ∧
    _job_is_remote { title := "Platform Engineer", company := "Acme" } = false ∧
    ({ title := "Platform Engineer", company := "Acme" } : Job).location = "" ∧
    strContains (pyLower ({ title := "Platform Engineer", company := "Acme" } : Job).location)
      (pyLower "Ontario") = false := by
  decide

/-- C3 (amended): with a configured province, a non-remote job with a
*non-empty* location string that does not contain the province name
(case-insensitively) is rejected by `matches_filters`, regardless of the
other filter settings. -/
theorem C3_amended_province_policy (job : Job) (filters : FilterConfig)
    (prov : String) (hprov : prov ≠ "") (hrem : _job_is_remote job = false)
    (hloc : job.location ≠ "")
    (hmatch : strContains (pyLower job.location) (pyLower prov) = false) :
    matches_filters job filters prov = false := by
  unfold matches_filters
  repeat' split
  all_goals simp_all

/-- Witness for C3 (amended): a Vancouver job against an Ontario candidate. -/
theorem C3_amended_province_policy_witness :
    matches_filters { title := "Platform Engineer", company := "Acme", location := "Vancouver, British Columbia" } {} "Ontario" = false :=
  C3_amended_province_policy _ _ _ (by decide) (by decide) (by decide) (by decide)

/-- C9: a job is treated as remote exactly when its `is_remote` flag is set
or `"remote"` occurs in the lowercased title; consequently a job whose title
contains `"remote"` is filtered identically with and without a configured
candidate province — the province filter is bypassed entirely. -/
theorem C9_remote_title_bypass :
    (∀ job : Job, _job_is_remote job =
      (job.is_remote || strContains (pyLower job.title) "remote")) ∧
    (∀ (job : Job) (filters : FilterConfig) (prov : String),
      strContains (pyLower job.title) "remote" = true →
      matches_filters job filters prov = matches_filters job filters "") := by
  constructor
  · intro job
    unfold _job_is_remote
    cases hr : job.is_remote <;> cases ht : strContains (pyLower job.title) "remote" <;> simp [hr, ht]
  · intro job filters prov h
    have hr : _job_is_remote job = true := by
      unfold _job_is_remote
      cases job.is_remote <;> simp [h]
    unfold matches_filters
    simp [hr]

/-- Witness for C9: a title-remote job with a foreign location filters the
same under an Ontario province as under none. -/
theorem C9_remote_title_bypass_witness :
    matches_filters { title := "Remote Scrum Master", company := "Acme", location := "Berlin, Germany" } {} "Ontario" =
      matches_filters { title := "Remote Scrum Master", company := "Acme", location := "Berlin, Germany" } {} "" :=
  C9_remote_title_bypass.2 _ {} "Ontario" (by decide)

/-- C5 counterexample: a redirect chain ending in HTTP 500 at the homepage
(final URL path empty, final URL differing from the input) is reported
alive with reason `"http_500"`, not `redirect_to_homepage` — the homepage
heuristic only fires for final statuses 200/301/302. -/
theorem C5_counterexample_status_500 :
    check_url_alive "https://example.com/jobs/123"
      (.success ⟨500, "https://example.com", ""⟩) = (true, "http_500") ∧
    (500 : Nat) ≠ 404 ∧ (500 : Nat) ≠ 410 ∧
    urlPath "https://example.com" = "" ∧
    "https://example.com/jobs/123" ≠ "https://example.com" := by
  decide

/-- C5 (amended): for every HTTP input URL whose final response status is
200, 301 or 302 with a non-empty final URL, if the final URL's path is empty
and the final URL differs from the input URL, `check_url_alive` returns
`(false, "redirect_to_homepage")`. -/
theorem C5_amended_redirect_to_homepage (url : String) (resp : HttpResponse)
    (hhttp : pyStartsWith url "http" = true)
    (hstatus : resp.status_code = 200 ∨ resp.status_code = 301 ∨ resp.status_code = 302)
    (hurl : resp.url ≠ "") (hpath : urlPath resp.url = "") (hdiff : url ≠ resp.url) :
    check_url_alive url (.success resp) = (false, "redirect_to_homepage") := by
  have hne : url ≠ "" := by
    intro h
    rw [h] at hhttp
    exact absurd hhttp (by decide)
  have hstrip : rstripSlash (urlPath resp.url) = "" := by
    rw [hpath]; decide
  unfold check_url_alive
  rcases hstatus with h | h | h <;>
    simp [hne, hhttp, hurl, hdiff, h, hstrip]

/-- Witness for C5 (amended): a 302 landing on the bare domain. -/
theorem C5_amended_redirect_to_homepage_witness :
    check_url_alive "https://example.com/jobs/123"
      (.success ⟨302, "https://example.com", ""⟩) = (false, "redirect_to_homepage") :=
  C5_amended_redirect_to_homepage _ _ (by decide) (Or.inr (Or.inr rfl))
    (by decide) (by decide) (by decide)

/-- The anti-signal penalty is one of 0, 1/10, 1/2; in particular nonnegative. -/
theorem antiPenalty_nonneg (cfg : RelevanceConfig) (jd title_lower : String) :
    0 ≤ antiPenalty cfg jd title_lower := by
  unfold antiPenalty
  repeat' split
  all_goals norm_num

/-- Folding the area loop over areas with empty keyword lists leaves the
accumulator unchanged: such areas are skipped by the `continue`. -/
theorem foldl_areaStep_empty (text : String) (areas : List FocusArea)
    (hkw : ∀ a ∈ areas, a.keywords = []) :
    ∀ d, areas.foldl (areaStep text) d = d := by
  induction areas with
  | nil => intro d; rfl
  | cons a rest ih =>
    intro d
    have ha : a.keywords = [] := hkw a (by simp)
    have hstep : areaStep text d a = d := by unfold areaStep; rw [if_pos ha]
    rw [List.foldl_cons, hstep]
    exact ih (fun x hx => hkw x (by simp [hx])) d

/-- Evaluating `areaScores` over keyword-less areas gives the empty dict. -/
theorem areaScores_all_empty (text : String) (areas : List FocusArea)
    (hkw : ∀ a ∈ areas, a.keywords = []) :
    areaScores text areas = [] :=
  foldl_areaStep_empty text areas hkw []

/-- C10: a focus area with an empty keyword list contributes nothing to the
numerator while its weight still counts in `total_weight`; hence for a config
whose focus areas are all keyword-less (but non-empty), the weighted-average
base score is 0, the final score is 0 (not 1.0 as in the empty-focus_areas
case), and the breakdown is empty. -/
theorem C10_empty_keyword_areas (cfg : RelevanceConfig) (jd title : String)
    (hne : cfg.focus_areas ≠ []) (hkw : ∀ a ∈ cfg.focus_areas, a.keywords = []) :
    baseScore jd title cfg = 0 ∧
    (compute_relevance_score jd title cfg).1 = 0 ∧
    (compute_relevance_score jd title cfg).2 = [] := by
  have hA : areaScores (pyLower jd) cfg.focus_areas = [] :=
    areaScores_all_empty _ _ hkw
  have hbase : baseScore jd title cfg = 0 := by
    unfold baseScore
    rw [hA]
    split <;> simp
  refine ⟨hbase, ?_, ?_⟩
  · unfold compute_relevance_score
    rw [if_neg hne]
    simp only [hbase]
    have := antiPenalty_nonneg cfg jd (pyLower title)
    simp only [zero_sub, max_eq_right_iff]
    linarith
  · unfold compute_relevance_score
    rw [if_neg hne]
    exact hA

/-- Witness for C10: one keyword-less focus area of weight 3. -/
theorem C10_empty_keyword_areas_witness :
    baseScore "scrum master agile" "SM" ⟨[⟨"Agility", 3, []⟩], [], 0⟩ = 0 ∧
    (compute_relevance_score "scrum master agile" "SM" ⟨[⟨"Agility", 3, []⟩], [], 0⟩).1 = 0 ∧
    (compute_relevance_score "scrum master agile" "SM" ⟨[⟨"Agility", 3, []⟩], [], 0⟩).2 = [] :=
  C10_empty_keyword_areas _ "scrum master agile" "SM" (by decide)
    (by intro a ha; simp at ha; rw [ha])

/-- C6 counterexample: with a non-empty anti-signal list but *no* focus
areas, the early `focus_areas == []` return yields score 1.0 and the title
penalty is never applied, contradicting the claim's unconditional
"subtract 0.5 on a title match" (which would cap the score at 1/2). -/
theorem C6_counterexample_empty_focus :
    compute_relevance_score "security work" "Sales Manager" ⟨[], ["sales"], 0⟩ = (1, []) ∧
    (⟨[], ["sales"], 0⟩ : RelevanceConfig).anti_signals ≠ [] ∧
    (["sales"].any fun sig => hasWordBoundaryMatch (pyLower sig) (pyLower "Sales Manager")) = true ∧
    ¬((1 : ℚ) ≤ max (1 - 1/2) 0) := by
  refine ⟨by decide, by decide, by decide, by norm_num⟩

/-- C6 (amended): for configs with a non-empty anti-signal list *and a
non-empty focus-area list*, the score is the weighted-average base score
minus a single penalty — 0.5 if some anti-signal matches the lowercased
title on a word boundary, else 0.1 if some anti-signal matches the first 5
lines of the JD text, else 0 (the two penalties never stack) — floored at 0. -/
theorem C6_amended_anti_signal_tiers (cfg : RelevanceConfig) (jd title : String)
    (hanti : cfg.anti_signals ≠ []) (hfocus : cfg.focus_areas ≠ []) :
    (compute_relevance_score jd title cfg).1 =
      max (baseScore jd title cfg -
        (if cfg.anti_signals.any (fun sig => hasWordBoundaryMatch (pyLower sig) (pyLower title)) then (1 : ℚ)/2
         else if cfg.anti_signals.any (fun sig => hasWordBoundaryMatch (pyLower sig) (firstFiveLines jd)) then 1/10
         else 0)) 0 ∧
    0 ≤ (compute_relevance_score jd title cfg).1 := by
  constructor
  · unfold compute_relevance_score antiPenalty
    rw [if_neg hfocus, if_neg hanti]
  · unfold compute_relevance_score
    rw [if_neg hfocus]
    exact le_max_right _ _

/-- Witness for C6 (amended): a title anti-signal hit with one focus area. -/
theorem C6_amended_anti_signal_tiers_witness :
    (compute_relevance_score "security work" "Sales Manager" ⟨[⟨"Sec", 1, ["security"]⟩], ["sales"], 0⟩).1 =
      max (baseScore "security work" "Sales Manager" ⟨[⟨"Sec", 1, ["security"]⟩], ["sales"], 0⟩ -
        (if (["sales"].any fun sig => hasWordBoundaryMatch (pyLower sig) (pyLower "Sales Manager")) then (1 : ℚ)/2
         else if (["sales"].any fun sig => hasWordBoundaryMatch (pyLower sig) (firstFiveLines "security work")) then 1/10
         else 0)) 0 ∧
    0 ≤ (compute_relevance_score "security work" "Sales Manager" ⟨[⟨"Sec", 1, ["security"]⟩], ["sales"], 0⟩).1 :=
  C6_amended_anti_signal_tiers _ "security work" "Sales Manager" (by decide) (by decide)

/-- A pair in a dict after insertion carries the inserted value or was
already present. -/
theorem dictInsert_mem_val {α : Type} {p : String × α} {k : String} {v : α} :
    ∀ {d : List (String × α)}, p ∈ dictInsert k v d → p.2 = v ∨ p ∈ d := by
  intro d
  induction d with
  | nil =>
    intro h
    simp only [dictInsert, List.mem_singleton] at h
    left; rw [h]
  | cons q rest ih =>
    obtain ⟨k', v'⟩ := q
    intro h
    simp only [dictInsert] at h
    split at h
    · rcases List.mem_cons.mp h with h | h
      · left; rw [h]
      · right; exact List.mem_cons_of_mem _ h
    · rcases List.mem_cons.mp h with h | h
      · right; rw [h]; exact List.mem_cons_self _ _
      · rcases ih h with h | h
        · left; exact h
        · right; exact List.mem_cons_of_mem _ h

/-- Inserting `v` grows the value sum by at most `v` (an overwrite drops a
nonnegative old value). -/
theorem sumVals_dictInsert_le {k : String} {v : ℚ} :
    ∀ {d : List (String × ℚ)}, (∀ p ∈ d, 0 ≤ p.2) →
      ((dictInsert k v d).map (·.2)).sum ≤ (d.map (·.2)).sum + v := by
  intro d
  induction d with
  | nil => intro _; simp [dictInsert]
  | cons q rest ih =>
    obtain ⟨k', v'⟩ := q
    intro hd
    have hv' : 0 ≤ v' := hd (k', v') (List.mem_cons_self _ _)
    simp only [dictInsert]
    split
    · simp only [List.map_cons, List.sum_cons]
      linarith
    · simp only [List.map_cons, List.sum_cons]
      have := ih (fun p hp => hd p (List.mem_cons_of_mem _ hp))
      linarith

/-- Insert a value within `[0, w]`: values stay nonnegative and the sum grows
by at most `w`. -/
theorem dictInsert_bound {k : String} {v w : ℚ} (hv0 : 0 ≤ v) (hvw : v ≤ w)
    {d : List (String × ℚ)} (hd : ∀ p ∈ d, 0 ≤ p.2) :
    (∀ p ∈ dictInsert k v d, 0 ≤ p.2) ∧
    ((dictInsert k v d).map (·.2)).sum ≤ (d.map (·.2)).sum + w := by
  constructor
  · intro p hp
    rcases dictInsert_mem_val hp with h | h
    · rw [h]; exact hv0
    · exact hd p h
  · exact le_trans (sumVals_dictInsert_le hd) (by linarith)

/-- One area step keeps dict values nonnegative and adds at most the area's
weight to the value sum (an area's score is within `[0, weight]`). -/
theorem areaStep_bound (text : String) (area : FocusArea) (hw : 0 < area.weight)
    {d : List (String × ℚ)} (hd : ∀ p ∈ d, 0 ≤ p.2) :
    (∀ p ∈ areaStep text d area, 0 ≤ p.2) ∧
    ((areaStep text d area).map (·.2)).sum ≤ (d.map (·.2)).sum + area.weight := by
  by_cases hkw : area.keywords = []
  · unfold areaStep
    rw [if_pos hkw]
    exact ⟨hd, by linarith⟩
  · simp only [areaStep, if_neg hkw]
    have hlen : (0 : ℚ) < (area.keywords.length : ℚ) :=
      Nat.cast_pos.mpr (List.length_pos.mpr hkw)
    set matched := area.keywords.filter (fun kw => strContains text (pyLower kw)) with hm
    set breadth : ℚ := (matched.length : ℚ) / (area.keywords.length : ℚ) with hb
    set dn : ℚ := min (((matched.map (fun kw => strCount text (pyLower kw))).sum : ℚ) / 20) 1 with hdn
    have hb0 : 0 ≤ breadth := div_nonneg (Nat.cast_nonneg _) (Nat.cast_nonneg _)
    have hb1 : breadth ≤ 1 :=
      (div_le_one hlen).mpr (Nat.cast_le.mpr (List.length_filter_le _ _))
    have hdn0 : 0 ≤ dn :=
      le_min (div_nonneg (Nat.cast_nonneg _) (by norm_num)) zero_le_one
    have hdn1 : dn ≤ 1 := min_le_right _ _
    have hv0 : 0 ≤ (breadth * (7 / 10) + dn * (3 / 10)) * area.weight := by
      have : 0 ≤ breadth * (7 / 10) + dn * (3 / 10) := by linarith
      exact mul_nonneg this hw.le
    have hvw : (breadth * (7 / 10) + dn * (3 / 10)) * area.weight ≤ area.weight := by
      have hinner : breadth * (7 / 10) + dn * (3 / 10) ≤ 1 := by linarith
      calc (breadth * (7 / 10) + dn * (3 / 10)) * area.weight
          ≤ 1 * area.weight := mul_le_mul_of_nonneg_right hinner hw.le
        _ = area.weight := one_mul _
    exact dictInsert_bound hv0 hvw hd

/-- Folding the area loop over positively weighted areas keeps dict values
nonnegative and bounds the value sum by the accumulated weight sum. -/
theorem foldl_areaStep_bound (text : String) :
    ∀ (areas : List FocusArea), (∀ a ∈ areas, 0 < a.weight) →
      ∀ (d : List (String × ℚ)), (∀ p ∈ d, 0 ≤ p.2) →
      (∀ p ∈ areas.foldl (areaStep text) d, 0 ≤ p.2) ∧
      ((areas.foldl (areaStep text) d).map (·.2)).sum ≤
        (d.map (·.2)).sum + (areas.map (·.weight)).sum := by
  intro areas
  induction areas with
  | nil =>
    intro _ d hd
    exact ⟨hd, by simp⟩
  | cons a rest ih =>
    intro hwa d hd
    have hstep := areaStep_bound text a (hwa a (List.mem_cons_self _ _)) hd
    have hrest := ih (fun x hx => hwa x (List.mem_cons_of_mem _ hx)) _ hstep.1
    refine ⟨hrest.1, ?_⟩
    simp only [List.foldl_cons, List.map_cons, List.sum_cons]
    have h2 := hrest.2
    have h1 := hstep.2
    linarith

/-- C2: with positive focus-area weights (as the data model requires), the
relevance score is within `[0, 1]` for every JD text and title; and with an
empty focus-area list the score is exactly 1. -/
theorem C2_relevance_bounds (cfg : RelevanceConfig)
    (hw : ∀ a ∈ cfg.focus_areas, 0 < a.weight) (jd title : String) :
    0 ≤ (compute_relevance_score jd title cfg).1 ∧
    (compute_relevance_score jd title cfg).1 ≤ 1 ∧
    (cfg.focus_areas = [] → (compute_relevance_score jd title cfg).1 = 1) := by
  by_cases hfa : cfg.focus_areas = []
  · unfold compute_relevance_score
    rw [if_pos hfa]
    norm_num
  · have hW : 0 < totalWeight cfg := by
      refine List.sum_pos _ ?_ ?_
      · intro x hx
        obtain ⟨a, ha, rfl⟩ := List.mem_map.mp hx
        exact hw a ha
      · exact fun h => hfa (List.map_eq_nil_iff.mp h)
    have hS := foldl_areaStep_bound (pyLower jd) cfg.focus_areas hw [] (by simp)
    have hS0 : 0 ≤ ((areaScores (pyLower jd) cfg.focus_areas).map (·.2)).sum := by
      refine List.sum_nonneg ?_
      intro x hx
      obtain ⟨p, hp, rfl⟩ := List.mem_map.mp hx
      exact hS.1 p hp
    have hSW : ((areaScores (pyLower jd) cfg.focus_areas).map (·.2)).sum ≤ totalWeight cfg := by
      have := hS.2
      simpa [areaScores, totalWeight] using this
    have hbase0 : 0 ≤ baseScore jd title cfg := by
      unfold baseScore
      rw [if_neg (ne_of_gt hW)]
      exact div_nonneg hS0 hW.le
    have hbase1 : baseScore jd title cfg ≤ 1 := by
      unfold baseScore
      rw [if_neg (ne_of_gt hW)]
      exact (div_le_one hW).mpr hSW
    have hp := antiPenalty_nonneg cfg jd (pyLower title)
    unfold compute_relevance_score
    rw [if_neg hfa]
    refine ⟨le_max_right _ _, max_le (by linarith) zero_le_one, fun h => absurd h hfa⟩

/-- Witness for C2: a one-area config with weight 1. -/
theorem C2_relevance_bounds_witness :
    0 ≤ (compute_relevance_score "scrum master role" "SM" ⟨[⟨"Agile", 1, ["scrum"]⟩], [], 0⟩).1 ∧
    (compute_relevance_score "scrum master role" "SM" ⟨[⟨"Agile", 1, ["scrum"]⟩], [], 0⟩).1 ≤ 1 ∧
    (([⟨"Agile", 1, ["scrum"]⟩] : List FocusArea) = [] →
      (compute_relevance_score "scrum master role" "SM" ⟨[⟨"Agile", 1, ["scrum"]⟩], [], 0⟩).1 = 1) :=
  C2_relevance_bounds ⟨[⟨"Agile", 1, ["scrum"]⟩], [], 0⟩ (by decide) "scrum master role" "SM"

/-- Stamping the fingerprint does not change the fields it is computed from. -/
theorem fpOf_stampFp (j : Job) : fpOf (stampFp j) = fpOf j := rfl

/-- Stamping is idempotent. -/
theorem stampFp_idem (j : Job) : stampFp (stampFp j) = stampFp j := rfl

/-- Members of `keepFirsts l` come from `l`. -/
theorem keepFirsts_mem : ∀ (l : List Job), ∀ j ∈ keepFirsts l, j ∈ l := by
  intro l
  induction l using keepFirsts.induct with
  | case1 =>
    intro j h
    simpa [keepFirsts] using h
  | case2 j' rest ih =>
    intro j h
    rw [keepFirsts] at h
    rcases List.mem_cons.mp h with h | h
    · exact h ▸ List.mem_cons_self _ _
    · exact List.mem_cons_of_mem _ (List.mem_of_mem_filter (ih j h))

/-- The fingerprints of `keepFirsts l` are pairwise distinct. -/
theorem keepFirsts_fps_nodup : ∀ (l : List Job), ((keepFirsts l).map fpOf).Nodup := by
  intro l
  induction l using keepFirsts.induct with
  | case1 => simp [keepFirsts]
  | case2 j rest ih =>
    rw [keepFirsts]
    simp only [List.map_cons, List.nodup_cons]
    refine ⟨?_, ih⟩
    intro hmem
    obtain ⟨x, hx, hfp⟩ := List.mem_map.mp hmem
    have hxf := keepFirsts_mem _ x hx
    have hne := List.of_mem_filter hxf
    simp only [decide_not, Bool.not_eq_eq_eq_not, Bool.not_true, decide_eq_false_iff_not] at hne
    exact hne hfp

/-- Unfolding `keepFirsts` on a cons cell. -/
theorem keepFirsts_cons (j : Job) (rest : List Job) :
    keepFirsts (j :: rest) = j :: keepFirsts (rest.filter (fun j2 => fpOf j2 ≠ fpOf j)) := by
  rw [keepFirsts]

/-- The dedup loop is `keepFirsts` of the not-yet-seen jobs, stamped. -/
theorem dedupGo_eq_keepFirsts : ∀ (l : List Job) (seen : List String),
    dedupGo seen l =
      (keepFirsts (l.filter (fun j => !seen.contains (fpOf j)))).map stampFp := by
  intro l
  induction l with
  | nil => intro seen; simp [dedupGo, keepFirsts]
  | cons j rest ih =>
    intro seen
    cases h : seen.contains (fpOf j) with
    | true =>
      have hp : (!seen.contains (fpOf j)) = false := by rw [h]; rfl
      simp only [dedupGo, h, if_true, List.filter_cons, hp, Bool.false_eq_true, if_false]
      exact ih seen
    | false =>
      simp only [dedupGo, h, Bool.false_eq_true, if_false, List.filter_cons,
        Bool.not_false, eq_self_iff_true, if_true]
      rw [keepFirsts_cons, List.map_cons]
      refine congrArg (List.cons (stampFp j)) ?_
      rw [ih (fpOf j :: seen)]
      refine congrArg (List.map stampFp) (congrArg keepFirsts ?_)
      rw [List.filter_filter]
      apply List.filter_congr
      intro x _
      by_cases hx : fpOf x = fpOf j <;> simp [hx, List.contains_cons]

/-- On a stamped list with pairwise-distinct fingerprints none of which are
in `seen`, the dedup loop is the identity. -/
theorem dedupGo_self : ∀ (l : List Job) (seen : List String),
    (∀ x ∈ l, stampFp x = x) → ((l.map fpOf).Nodup) →
    (∀ x ∈ l, seen.contains (fpOf x) = false) →
    dedupGo seen l = l := by
  intro l
  induction l with
  | nil => intro seen _ _ _; rfl
  | cons j rest ih =>
    intro seen hstamp hnodup hseen
    have hj : seen.contains (fpOf j) = false := hseen j (List.mem_cons_self _ _)
    simp only [dedupGo, hj, Bool.false_eq_true, if_false]
    rw [hstamp j (List.mem_cons_self _ _)]
    congr 1
    simp only [List.map_cons, List.nodup_cons] at hnodup
    apply ih
    · exact fun x hx => hstamp x (List.mem_cons_of_mem _ hx)
    · exact hnodup.2
    · intro x hx
      have h1 : fpOf x ≠ fpOf j := by
        intro he
        exact hnodup.1 (he ▸ List.mem_map_of_mem fpOf hx)
      have h2 : fpOf x ∉ seen := by
        simpa using hseen x (List.mem_cons_of_mem _ hx)
      simp [List.contains_cons, h1, h2]

/-- One-step unfolding of the dedup loop. -/
theorem dedupGo_cons (seen : List String) (j : Job) (rest : List Job) :
    dedupGo seen (j :: rest) =
      if seen.contains (fpOf j) then dedupGo seen rest
      else stampFp j :: dedupGo (fpOf j :: seen) rest := rfl

/-- Every job the dedup loop emits carries its computed fingerprint. -/
theorem dedupGo_stamped : ∀ (l : List Job) (seen : List String),
    ∀ x ∈ dedupGo seen l, stampFp x = x := by
  intro l
  induction l with
  | nil => intro seen x hx; cases hx
  | cons j rest ih =>
    intro seen x hx
    cases h : seen.contains (fpOf j) with
    | true =>
      rw [dedupGo_cons, if_pos h] at hx
      exact ih seen x hx
    | false =>
      rw [dedupGo_cons, if_neg (by simp only [h]; exact Bool.false_ne_true)] at hx
      rcases List.mem_cons.mp hx with rfl | hx
      · exact stampFp_idem j
      · exact ih _ x hx

/-- The dedup loop emits pairwise-distinct fingerprints, none of them in
`seen`. -/
theorem dedupGo_fps_nodup : ∀ (l : List Job) (seen : List String),
    ((dedupGo seen l).map fpOf).Nodup ∧
    (∀ x ∈ dedupGo seen l, seen.contains (fpOf x) = false) := by
  intro l
  induction l with
  | nil => intro seen; exact ⟨List.nodup_nil, fun x hx => absurd hx (List.not_mem_nil x)⟩
  | cons j rest ih =>
    intro seen
    cases h : seen.contains (fpOf j) with
    | true =>
      rw [dedupGo_cons, if_pos h]
      exact ih seen
    | false =>
      rw [dedupGo_cons, if_neg (by simp only [h]; exact Bool.false_ne_true)]
      obtain ⟨nd, hmem⟩ := ih (fpOf j :: seen)
      constructor
      · rw [List.map_cons, List.nodup_cons]
        refine ⟨?_, nd⟩
        intro hin
        obtain ⟨x, hx, hfp⟩ := List.mem_map.mp hin
        have := hmem x hx
        rw [fpOf_stampFp] at hfp
        simp [List.contains_cons, hfp] at this
      · intro x hx
        rcases List.mem_cons.mp hx with rfl | hx
        · rw [fpOf_stampFp]; exact h
        · have := hmem x hx
          simp only [List.contains_cons, Bool.or_eq_false_iff] at this
          exact this.2

/-- C7: `deduplicate` returns exactly the first occurrence of each
fingerprint in input order (later duplicates dropped, their data never
merged), with the computed fingerprint stamped on; and it is idempotent. -/
theorem C7_dedup_first_occurrence (jobs : List Job) :
    deduplicate jobs = (keepFirsts jobs).map stampFp ∧
    deduplicate (deduplicate jobs) = deduplicate jobs := by
  constructor
  · have hfil : jobs.filter (fun j => !List.contains [] (fpOf j)) = jobs :=
      List.filter_eq_self.mpr (fun a _ => by simp)
    unfold deduplicate
    rw [dedupGo_eq_keepFirsts, hfil]
  · show dedupGo [] (deduplicate jobs) = deduplicate jobs
    apply dedupGo_self
    · exact dedupGo_stamped jobs []
    · exact (dedupGo_fps_nodup jobs []).1
    · intro x hx
      rfl

/-- The range branch only returns values clearing the 20,000 floor. -/
theorem trySalaryRange_floor {line : List Char} {r : SalaryResult}
    (h : trySalaryRange line = some r) :
    (∀ v, r.1 = some v → 20000 ≤ v) ∧ (∀ v, r.2.1 = some v → 20000 ≤ v) := by
  unfold trySalaryRange at h
  split at h
  next raw g1 g2 =>
    dsimp only at h
    split at h
    next hif =>
      rw [Bool.and_eq_true] at hif
      have h1' := of_decide_eq_true hif.1
      have h2' := of_decide_eq_true hif.2
      injection h with h
      subst h
      refine ⟨?_, ?_⟩
      · intro v hv
        injection hv with hv
        subst hv
        exact le_min h1' h2'
      · intro v hv
        injection hv with hv
        subst hv
        exact le_trans h1' (le_max_left _ _)
    next => exact absurd h (by simp)
  next => exact absurd h (by simp)

/-- The K-notation branch only returns values clearing the 20,000 floor. -/
theorem trySalaryK_floor {line : List Char} {r : SalaryResult}
    (h : trySalaryK line = some r) :
    (∀ v, r.1 = some v → 20000 ≤ v) ∧ (∀ v, r.2.1 = some v → 20000 ≤ v) := by
  unfold trySalaryK at h
  split at h
  next raw g1 g2 =>
    dsimp only at h
    split at h
    next hif =>
      rw [Bool.and_eq_true] at hif
      have h1' := of_decide_eq_true hif.1
      have h2' := of_decide_eq_true hif.2
      injection h with h
      subst h
      refine ⟨?_, ?_⟩
      · intro v hv
        injection hv with hv
        subst hv
        exact le_min h1' h2'
      · intro v hv
        injection hv with hv
        subst hv
        exact le_trans h1' (le_max_left _ _)
    next => exact absurd h (by simp)
  next => exact absurd h (by simp)

/-- The single-value branches only return values clearing the 20,000 floor. -/
theorem trySalarySingle_floor {pat : RE} {line : List Char} {r : SalaryResult}
    (h : trySalarySingle pat line = some r) :
    (∀ v, r.1 = some v → 20000 ≤ v) ∧ (∀ v, r.2.1 = some v → 20000 ≤ v) := by
  unfold trySalarySingle at h
  split at h
  next raw g =>
    dsimp only at h
    split at h
    next hif =>
      have h1' := hif
      injection h with h
      subst h
      refine ⟨?_, ?_⟩
      · intro v hv
        injection hv with hv
        subst hv
        exact h1'
      · intro v hv
        exact absurd hv (by simp)
    next => exact absurd h (by simp)
  next => exact absurd h (by simp)

/-- Any successful per-line extraction respects the 20,000 floor. -/
theorem extractFromLine_floor {line : List Char} {r : SalaryResult}
    (h : extractFromLine line = some r) :
    (∀ v, r.1 = some v → 20000 ≤ v) ∧ (∀ v, r.2.1 = some v → 20000 ≤ v) := by
  unfold extractFromLine at h
  split at h
  next heq =>
    injection h with h
    exact h ▸ trySalaryRange_floor heq
  next =>
    split at h
    next heq =>
      injection h with h
      exact h ▸ trySalaryK_floor heq
    next =>
      split at h
      next heq =>
        injection h with h
        exact h ▸ trySalarySingle_floor heq
      next => exact trySalarySingle_floor h

/-- One-step unfolding of the per-line extraction loop. -/
theorem extractFromLines_cons (line : List Char) (rest : List (List Char)) :
    extractFromLines (line :: rest) =
      if isHourlyLine line then extractFromLines rest
      else
        match extractFromLine line with
        | some r => r
        | none => extractFromLines rest := rfl

/-- The extraction loop respects the 20,000 floor on every line list. -/
theorem extractFromLines_floor : ∀ (lines : List (List Char)),
    (∀ v, (extractFromLines lines).1 = some v → 20000 ≤ v) ∧
    (∀ v, (extractFromLines lines).2.1 = some v → 20000 ≤ v) := by
  intro lines
  induction lines with
  | nil => exact ⟨fun v hv => absurd hv (by simp [extractFromLines]), fun v hv => absurd hv (by simp [extractFromLines])⟩
  | cons line rest ih =>
    rw [extractFromLines_cons]
    cases h : isHourlyLine line with
    | true =>
      rw [if_pos rfl]
      exact ih
    | false =>
      rw [if_neg Bool.false_ne_true]
      cases hm : extractFromLine line with
      | some r => exact extractFromLine_floor hm
      | none => exact ih

/-- C4: salary extraction never returns a figure below 20,000 in either
position; lines containing an hourly-rate marker are skipped, so they never
contribute a figure (the extraction is unchanged when they are removed);
and the two spec scenarios hold: `"Pay: $45/hour, plus benefits"` yields no
salary, while `"Salary: $95,000"` yields `salary_min = 95000`,
`salary_max = none`. -/
theorem C4_salary_floor_and_hourly_guard :
    (∀ d : String, (∀ v, (_extract_salary_from_description d).1 = some v → 20000 ≤ v) ∧
      (∀ v, (_extract_salary_from_description d).2.1 = some v → 20000 ≤ v)) ∧
    (∀ lines : List (List Char),
      extractFromLines lines = extractFromLines (lines.filter (fun l => !isHourlyLine l))) ∧
    _extract_salary_from_description "Pay: $45/hour, plus benefits" = (none, none, "") ∧
    _extract_salary_from_description "Salary: $95,000" = (some 95000, none, "Salary: $95,000") := by
  refine ⟨?_, ?_, by decide, by decide⟩
  · intro d
    unfold _extract_salary_from_description
    split
    · exact ⟨fun v hv => absurd hv (by simp), fun v hv => absurd hv (by simp)⟩
    · exact extractFromLines_floor _
  · intro lines
    induction lines with
    | nil => rfl
    | cons line rest ih =>
      cases h : isHourlyLine line with
      | true =>
        rw [extractFromLines_cons, if_pos h,
          List.filter_cons_of_neg (by simp only [h]; decide)]
        exact ih
      | false =>
        have hneg : ¬isHourlyLine line = true := by
          simp only [h]; exact Bool.false_ne_true
        rw [List.filter_cons_of_pos (by simp only [h]; decide),
          extractFromLines_cons, extractFromLines_cons, if_neg hneg, if_neg hneg]
        cases hm : extractFromLine line with
        | some r => rfl
        | none => exact ih

/-- Witness for C4: the floor component at the labeled-salary scenario. -/
theorem C4_salary_floor_witness : 20000 ≤ 95000 :=
  (C4_salary_floor_and_hourly_guard.1 "Salary: $95,000").1 95000 (by decide)

/-- Unfold `List.lookup` on a cons cell. -/
theorem lookup_cons {α : Type} (k k₀ : String) (v₀ : α) (d : List (String × α)) :
    List.lookup k ((k₀, v₀) :: d) = if k == k₀ then some v₀ else List.lookup k d := by
  cases h : k == k₀ <;> simp [List.lookup, h]

/-- Looking up a different key is unaffected by a dict insert. -/
theorem lookup_dictInsert_ne {α : Type} {k k' : String} (hne : k ≠ k') (v : α) :
    ∀ (d : List (String × α)), List.lookup k (dictInsert k' v d) = List.lookup k d := by
  intro d
  induction d with
  | nil =>
    show List.lookup k [(k', v)] = List.lookup k []
    rw [lookup_cons]
    have hb : (k == k') = false := beq_eq_false_iff_ne.mpr hne
    rw [hb, if_neg Bool.false_ne_true]
  | cons q rest ih =>
    obtain ⟨k₀, v₀⟩ := q
    simp only [dictInsert]
    split
    next heq =>
      rw [lookup_cons, lookup_cons]
      have hb : (k == k₀) = false := beq_eq_false_iff_ne.mpr (heq ▸ hne)
      rw [hb, if_neg Bool.false_ne_true, if_neg Bool.false_ne_true]
    next =>
      rw [lookup_cons, lookup_cons]
      cases hk : k == k₀ <;> simp [ih]

/-- One save-loop step inserts the processed job's stored fingerprint into
the ledger (whatever the save decision) and at most appends it to the saved
list. -/
theorem processNewJob_ledger (relcfg : Option RelevanceConfig) (validate_urls : Bool)
    (net : String → FetchResult) (now : String) (acc : List Job × Ledger) (job : Job) :
    ∃ m : SeenMeta,
      (processNewJob relcfg validate_urls net now acc job).2 =
        dictInsert (storedFp job) m acc.2 ∧
      ((processNewJob relcfg validate_urls net now acc job).1 = acc.1 ∨
       (processNewJob relcfg validate_urls net now acc job).1 = acc.1 ++ [job]) := by
  unfold processNewJob
  cases save_jd_decision job relcfg validate_urls net with
  | saved => exact ⟨_, rfl, Or.inr rfl⟩
  | expired reason => exact ⟨_, rfl, Or.inl rfl⟩
  | lowRelevance => exact ⟨_, rfl, Or.inl rfl⟩

/-- Folding the save loop over jobs whose fingerprints are absent from the
initial ledger: saved jobs come from the input, and every initial ledger
entry survives with its value intact. -/
theorem foldl_processNewJob_props (relcfg : Option RelevanceConfig)
    (validate_urls : Bool) (net : String → FetchResult) (now : String) (seen0 : Ledger) :
    ∀ (jobs : List Job) (acc : List Job × Ledger),
      (∀ j ∈ jobs, List.lookup (storedFp j) seen0 = none) →
      (∀ k v, List.lookup k seen0 = some v → List.lookup k acc.2 = some v) →
      (∀ j ∈ (jobs.foldl (processNewJob relcfg validate_urls net now) acc).1,
        j ∈ acc.1 ∨ j ∈ jobs) ∧
      (∀ k v, List.lookup k seen0 = some v →
        List.lookup k (jobs.foldl (processNewJob relcfg validate_urls net now) acc).2 = some v) := by
  intro jobs
  induction jobs with
  | nil =>
    intro acc hnew hacc
    exact ⟨fun j hj => Or.inl hj, hacc⟩
  | cons job rest ih =>
    intro acc hnew hacc
    simp only [List.foldl_cons]
    obtain ⟨m, hm, hsaved⟩ := processNewJob_ledger relcfg validate_urls net now acc job
    have hacc2 : ∀ k v, List.lookup k seen0 = some v →
        List.lookup k (processNewJob relcfg validate_urls net now acc job).2 = some v := by
      intro k v hk
      rw [hm]
      have hkne : k ≠ storedFp job := by
        intro he
        have hnone := hnew job (List.mem_cons_self _ _)
        rw [← he] at hnone
        rw [hnone] at hk
        cases hk
      rw [lookup_dictInsert_ne hkne]
      exact hacc k v hk
    have hrest := ih (processNewJob relcfg validate_urls net now acc job)
      (fun j hj => hnew j (List.mem_cons_of_mem _ hj)) hacc2
    refine ⟨?_, hrest.2⟩
    intro j hj
    rcases hrest.1 j hj with hj1 | hj1
    · rcases hsaved with hs | hs
      · rw [hs] at hj1
        exact Or.inl hj1
      · rw [hs] at hj1
        rcases List.mem_append.mp hj1 with h | h
        · exact Or.inl h
        · exact Or.inr (List.mem_cons.mpr (Or.inl (List.mem_singleton.mp h)))
    · exact Or.inr (List.mem_cons_of_mem _ hj1)

/-- C1: a fingerprint already in the seen-jobs ledger at the start of a run
is never re-emitted as new and never saved as a JD, regardless of the filter
or relevance configuration; and the ledger mapping at the end of the run is
a superset of the mapping at its start (no entry removed or overwritten). -/
theorem C1_ledger_at_most_once (all_jobs : List Job) (seen0 : Ledger)
    (filters : FilterConfig) (prov : String) (relcfg : Option RelevanceConfig)
    (dry_run validate_urls : Bool) (net : String → FetchResult) (now : String)
    (fp : String) (m : SeenMeta) (hseen : List.lookup fp seen0 = some m) :
    (∀ j ∈ (runPipeline all_jobs seen0 filters prov relcfg dry_run validate_urls net now).new_jobs,
      storedFp j ≠ fp) ∧
    (∀ j ∈ (runPipeline all_jobs seen0 filters prov relcfg dry_run validate_urls net now).saved,
      storedFp j ≠ fp) ∧
    (∀ k v, List.lookup k seen0 = some v →
      List.lookup k (runPipeline all_jobs seen0 filters prov relcfg dry_run validate_urls net now).seen_jobs
        = some v) := by
  have hnew : ∀ j ∈ (deduplicate all_jobs).filter (fun j =>
      (List.lookup (storedFp j) seen0).isNone && matches_filters j filters prov),
      List.lookup (storedFp j) seen0 = none := by
    intro j hj
    have hp := List.of_mem_filter hj
    rw [Bool.and_eq_true] at hp
    exact Option.isNone_iff_eq_none.mp hp.1
  have hnefp : ∀ j ∈ (deduplicate all_jobs).filter (fun j =>
      (List.lookup (storedFp j) seen0).isNone && matches_filters j filters prov),
      storedFp j ≠ fp := by
    intro j hj he
    have := hnew j hj
    rw [he, hseen] at this
    cases this
  unfold runPipeline
  split
  · exact ⟨fun j hj => absurd hj (List.not_mem_nil j),
      fun j hj => absurd hj (List.not_mem_nil j), fun k v hk => hk⟩
  · dsimp only
    split
    · exact ⟨hnefp, fun j hj => absurd hj (List.not_mem_nil j), fun k v hk => hk⟩
    · split
      · exact ⟨hnefp, fun j hj => absurd hj (List.not_mem_nil j), fun k v hk => hk⟩
      · have hfold := foldl_processNewJob_props relcfg validate_urls net now seen0
          ((deduplicate all_jobs).filter (fun j =>
            (List.lookup (storedFp j) seen0).isNone && matches_filters j filters prov))
          ([], seen0) hnew (fun k v hk => hk)
        refine ⟨hnefp, ?_, hfold.2⟩
        intro j hj
        rcases hfold.1 j hj with h | h
        · exact absurd h (List.not_mem_nil j)
        · exact hnefp j h

/-- Witness for C1: a one-entry ledger and a single fetched job. -/
theorem C1_ledger_at_most_once_witness :
    List.lookup "aaaa"
      (runPipeline [{ title := "Dev", company := "Acme" }]
        [("aaaa", ⟨"T", "C", "src", "2024-01-01", none, none, none⟩)]
        {} "" none false false (fun _ => .timeout) "2024-01-02").seen_jobs =
      some ⟨"T", "C", "src", "2024-01-01", none, none, none⟩ :=
  (C1_ledger_at_most_once [{ title := "Dev", company := "Acme" }]
    [("aaaa", ⟨"T", "C", "src", "2024-01-01", none, none, none⟩)]
    {} "" none false false (fun _ => .timeout) "2024-01-02"
    "aaaa" ⟨"T", "C", "src", "2024-01-01", none, none, none⟩ rfl).2.2
    "aaaa" ⟨"T", "C", "src", "2024-01-01", none, none, none⟩ rfl

end JobRadar
